import Mathlib

/-!
Verification of the bounded-latency rule-evaluation engine
(`src/apps/gatekeep/poc` with the shared data model of
`src/apps/logicflow/poc/src/models.rs`).

Modelling choices, stated once:

* Rust `f64` values are modelled as exact rationals (`ℚ`).  Every numeric
  comparison the engine performs is of the form `|a - b| < f64::EPSILON` or a
  strict/non-strict order test; on all concrete inputs appearing below the
  margins are astronomically larger than any double-rounding error
  (e.g. `1e-10` or `1.0` against a threshold of `2⁻⁵²`), so the rational
  model and IEEE-754 evaluation agree on every verdict used by a theorem.
  `f64::EPSILON` is exactly `2⁻⁵²`.
* `serde_json::Value` is the inductive `Value` below, numbers again as `ℚ`
  (`Value.as_f64` mirrors `serde_json::Value::as_f64`).
* Compiled regular expressions come from the external `regex` crate, which is
  outside this repository.  The embedding abstracts a compiled matcher as a
  Lean function `String → Bool` and the crate's two entry points used by the
  code (`Regex::new` and the nine pre-compiled preset patterns) as a
  `RegexEngine` record.  All general theorems quantify over the engine;
  concrete witnesses instantiate it with `litEngine`, which is honest for the
  only patterns those witnesses exercise (metacharacter-free literals, where
  the crate's `is_match` is exactly substring occurrence, and the `po_box`
  preset as implemented by
  `src/apps/gatekeep/app/extensions/gatekeep-validator/src/patterns.rs`).
* Rust `to_lowercase` is modelled by `String.toLower`; the two agree on the
  ASCII strings used in all concrete witnesses.
* `std::time::Instant` is modelled by an explicit clock: a function
  `Nat → Nat` giving the elapsed milliseconds observed by the i-th poll the
  driver makes (one poll per rule that reaches the time-budget guardrail),
  plus one final microsecond reading for the reported metric.
-/

namespace GateKeep

/-- `serde_json::Value` (numbers as exact rationals; see header). -/
inductive Value where
  | null : Value
  | bool (b : Bool) : Value
  | num (q : ℚ) : Value
  | str (s : String) : Value
  | arr (items : List Value) : Value
  | obj (fields : List (String × Value)) : Value

/-- `serde_json::Value::as_f64`. -/
def Value.as_f64 : Value → Option ℚ
  | .num q => some q
  | _ => none

/-- `serde_json::Value::as_str`. -/
def Value.as_str : Value → Option String
  | .str s => some s
  | _ => none

/-- Whether a `Value` is an array (`serde_json::Value::Array`). -/
def Value.isArr : Value → Bool
  | .arr _ => true
  | _ => false

/-- `models.rs` `FieldValue`: the resolved-value variant produced by the
field extractor. -/
inductive FieldValue where
  | String (s : String) : FieldValue
  | Number (q : ℚ) : FieldValue
  | Bool (b : Bool) : FieldValue
  | StringArray (items : List String) : FieldValue

/-- `models.rs` `ComparisonOperator` (13 variants). -/
inductive ComparisonOperator where
  | Equals | NotEquals
  | GreaterThan | GreaterThanOrEqual | LessThan | LessThanOrEqual
  | Contains | NotContains
  | StartsWith | EndsWith
  | RegexMatch
  | In | NotIn
deriving DecidableEq

/-- `models.rs` `LogicalOperator`. -/
inductive LogicalOperator where
  | And | Or
deriving DecidableEq

/-- `models.rs` `Condition`. -/
structure Condition where
  field : String
  operator : ComparisonOperator
  value : Value
  is_preset : Bool

mutual
/-- `models.rs` `ConditionGroup`. -/
inductive ConditionGroup where
  | mk (operator : LogicalOperator) (criteria : List Criterion) : ConditionGroup

/-- `models.rs` `Criterion`: a condition leaf or a nested group. -/
inductive Criterion where
  | Condition (c : Condition) : Criterion
  | Group (g : ConditionGroup) : Criterion
end

/-- `models.rs` `Rule`. -/
structure Rule where
  id : String
  name : String
  complexity : Nat
  enabled : Bool
  error_message : String
  conditions : ConditionGroup

/-- `models.rs` `RulesConfig`. -/
structure RulesConfig where
  version : String
  total_complexity : Nat
  rules : List Rule

/-- `models.rs` `LineItem` (`properties` HashMap as an association list). -/
structure LineItem where
  product_id : String
  variant_id : String
  sku : String
  vendor : String
  quantity : Nat
  price : ℚ

/-- `models.rs` `Address`. -/
structure Address where
  address1 : String
  address2 : String
  city : String
  province : String
  province_code : String
  country : String
  country_code : String
  zip : String

/-- `models.rs` `CartInput`. -/
structure CartInput where
  total : ℚ
  subtotal : ℚ
  quantity : Nat
  total_weight : ℚ
  customer_tags : List String
  shipping_address : Address
  line_items : List LineItem

/-- `Default` for `Address` (all fields empty), per `#[derive(Default)]`. -/
def Address.default : Address :=
  ⟨"", "", "", "", "", "", "", ""⟩

/-- `Default` for `CartInput`, per `#[derive(Default)]`. -/
def CartInput.default : CartInput :=
  ⟨0, 0, 0, 0, [], Address.default, []⟩

/-- `models.rs` `CartInput::get_field`: resolve a dotted field path against the
input record; unknown paths yield `none`.  `models.rs` splits the path on `'.'`
and matches the component slice (`["cart", "total"] => ...`); since every
component is dot-free, that is the same function of the path string as
matching the joined literal, which is how the sibling in-tree implementation
(`logicflow-validator/src/evaluator.rs` `get_field_value`) spells it and how
it is written here. -/
def CartInput.get_field (cart : CartInput) (path : String) : Option FieldValue :=
  match path with
  | "cart.total" => some (.Number cart.total)
  | "cart.subtotal" => some (.Number cart.subtotal)
  | "cart.quantity" => some (.Number (cart.quantity : ℚ))
  | "cart.total_weight" => some (.Number cart.total_weight)
  | "customer.tags" => some (.StringArray cart.customer_tags)
  | "shipping_address.address1" => some (.String cart.shipping_address.address1)
  | "shipping_address.address2" => some (.String cart.shipping_address.address2)
  | "shipping_address.city" => some (.String cart.shipping_address.city)
  | "shipping_address.province" => some (.String cart.shipping_address.province)
  | "shipping_address.province_code" => some (.String cart.shipping_address.province_code)
  | "shipping_address.country" => some (.String cart.shipping_address.country)
  | "shipping_address.country_code" => some (.String cart.shipping_address.country_code)
  | "shipping_address.zip" => some (.String cart.shipping_address.zip)
  | _ => none

/-- A compiled regular expression, abstracted as its matcher (`is_match`). -/
def CompiledRegex : Type := String → Bool

/-- The external `regex` crate, abstracted (see header): per-preset compiled
matchers, and `Regex::new` (`none` models a compile failure `Err`). -/
structure RegexEngine where
  presetMatch : String → CompiledRegex
  regexNew : String → Option CompiledRegex

/-- `patterns.rs` `get_preset_pattern`: look a pre-built pattern up by name;
`none` for an unrecognised name.  The name → entry map is the source's; the
compiled matcher itself belongs to the engine. -/
def get_preset_pattern (engine : RegexEngine) (name : String) : Option CompiledRegex :=
  if name = "po_box" then some (engine.presetMatch "po_box")
  else if name = "uk_postcode" then some (engine.presetMatch "uk_postcode")
  else if name = "us_zip" then some (engine.presetMatch "us_zip")
  else if name = "ca_postal" then some (engine.presetMatch "ca_postal")
  else if name = "email_basic" then some (engine.presetMatch "email_basic")
  else if name = "us_phone" then some (engine.presetMatch "us_phone")
  else if name = "profanity" then some (engine.presetMatch "profanity")
  else if name = "numeric_only" then some (engine.presetMatch "numeric_only")
  else if name = "suspicious_chars" then some (engine.presetMatch "suspicious_chars")
  else none

/-- `patterns.rs` `list_preset_patterns`: the nine registered preset names. -/
def list_preset_patterns : List String :=
  ["po_box", "uk_postcode", "us_zip", "ca_postal", "email_basic",
   "us_phone", "profanity", "numeric_only", "suspicious_chars"]

/-- `f64::EPSILON`, exactly `2⁻⁵²`. -/
def EPSILON : ℚ := 1 / 2 ^ 52

/-- Occurrence of `needle` as a contiguous run inside `haystack`. -/
def list_contains_sub (haystack needle : List Char) : Bool :=
  needle.isPrefixOf haystack ||
    match haystack with
    | [] => false
    | _ :: t => list_contains_sub t needle

/-- Rust `haystack.contains(needle)` on strings: substring occurrence. -/
def str_contains (haystack needle : String) : Bool :=
  list_contains_sub haystack.toList needle.toList

/-- `evaluator.rs` `compare_equals`. -/
def compare_equals (field_value : FieldValue) (condition_value : Value) : Bool :=
  match field_value, condition_value with
  | .String s, .str cv => s == cv
  | .Number n, .num cv => decide (|n - cv| < EPSILON)
  | .Bool b, .bool cv => b == cv
  | _, _ => false

/-- `evaluator.rs` `compare_numeric`. -/
def compare_numeric (field_value : FieldValue) (condition_value : Value)
    (cmp : ℚ → ℚ → Bool) : Bool :=
  match field_value with
  | .Number n =>
    match condition_value.as_f64 with
    | some cv => cmp n cv
    | none => false
  | _ => false

/-- `evaluator.rs` `compare_contains`. -/
def compare_contains (field_value : FieldValue) (condition_value : Value) : Bool :=
  match field_value, condition_value with
  | .String s, .str cv => str_contains s.toLower cv.toLower
  | .StringArray arr, .str cv => arr.any (fun s => s.toLower == cv.toLower)
  | _, _ => false

/-- `evaluator.rs` `compare_starts_with`. -/
def compare_starts_with (field_value : FieldValue) (condition_value : Value) : Bool :=
  match field_value, condition_value with
  | .String s, .str cv => s.toLower.startsWith cv.toLower
  | _, _ => false

/-- `evaluator.rs` `compare_ends_with`. -/
def compare_ends_with (field_value : FieldValue) (condition_value : Value) : Bool :=
  match field_value, condition_value with
  | .String s, .str cv => s.toLower.endsWith cv.toLower
  | _, _ => false

/-- `evaluator.rs` `compare_regex`: preset lookup when `is_preset` (an early
return on a hit), otherwise — including an unknown preset name — fall back to
compiling the literal as an ad hoc pattern, compile failure folding to
`false`. -/
def compare_regex (engine : RegexEngine) (field_value : FieldValue)
    (condition_value : Value) (is_preset : Bool) : Bool :=
  match condition_value.as_str with
  | none => false
  | some pattern_str =>
    match field_value with
    | .String field_str =>
      match (if is_preset then get_preset_pattern engine pattern_str else none) with
      | some preset => preset field_str
      | none =>
        match engine.regexNew pattern_str with
        | some re => re field_str
        | none => false
    | _ => false

/-- `evaluator.rs` `compare_in`. -/
def compare_in (field_value : FieldValue) (condition_value : Value) : Bool :=
  match condition_value with
  | .arr arr =>
    match field_value with
    | .String s => arr.any (fun v =>
        match v.as_str with
        | some vs => vs.toLower == s.toLower
        | none => false)
    | .Number n => arr.any (fun v =>
        match v.as_f64 with
        | some vn => decide (|n - vn| < EPSILON)
        | none => false)
    | _ => false
  | _ => false

/-- `evaluator.rs` `compare`: the 13-operator comparator dispatch. -/
def compare (engine : RegexEngine) (field_value : FieldValue)
    (operator : ComparisonOperator) (condition_value : Value)
    (is_preset : Bool) : Bool :=
  match operator with
  | .Equals => compare_equals field_value condition_value
  | .NotEquals => !compare_equals field_value condition_value
  | .GreaterThan => compare_numeric field_value condition_value (fun a b => decide (a > b))
  | .GreaterThanOrEqual => compare_numeric field_value condition_value (fun a b => decide (a ≥ b))
  | .LessThan => compare_numeric field_value condition_value (fun a b => decide (a < b))
  | .LessThanOrEqual => compare_numeric field_value condition_value (fun a b => decide (a ≤ b))
  | .Contains => compare_contains field_value condition_value
  | .NotContains => !compare_contains field_value condition_value
  | .StartsWith => compare_starts_with field_value condition_value
  | .EndsWith => compare_ends_with field_value condition_value
  | .RegexMatch => compare_regex engine field_value condition_value is_preset
  | .In => compare_in field_value condition_value
  | .NotIn => !compare_in field_value condition_value

/-- `evaluator.rs` `evaluate_condition`: resolve the field, then compare;
a missing field resolves the leaf to `false` without invoking the
comparator. -/
def evaluate_condition (engine : RegexEngine) (condition : Condition)
    (cart : CartInput) : Bool :=
  match cart.get_field condition.field with
  | none => false
  | some field_value =>
    compare engine field_value condition.operator condition.value condition.is_preset

mutual
/-- `evaluator.rs` `evaluate_group` (AND/OR over the criteria list). -/
def evaluate_group (engine : RegexEngine) (group : ConditionGroup)
    (cart : CartInput) : Bool :=
  match group with
  | .mk .And criteria => evaluate_all engine criteria cart
  | .mk .Or criteria => evaluate_any engine criteria cart

/-- `Iterator::all` over criteria (short-circuiting conjunction). -/
def evaluate_all (engine : RegexEngine) (criteria : List Criterion)
    (cart : CartInput) : Bool :=
  match criteria with
  | [] => true
  | c :: rest => evaluate_criterion engine c cart && evaluate_all engine rest cart

/-- `Iterator::any` over criteria (short-circuiting disjunction). -/
def evaluate_any (engine : RegexEngine) (criteria : List Criterion)
    (cart : CartInput) : Bool :=
  match criteria with
  | [] => false
  | c :: rest => evaluate_criterion engine c cart || evaluate_any engine rest cart

/-- `evaluator.rs` `evaluate_criterion`. -/
def evaluate_criterion (engine : RegexEngine) (criterion : Criterion)
    (cart : CartInput) : Bool :=
  match criterion with
  | .Condition c => evaluate_condition engine c cart
  | .Group g => evaluate_group engine g cart
end

/-- `evaluator.rs` `evaluate_rule`. -/
def evaluate_rule (engine : RegexEngine) (rule : Rule) (cart : CartInput) : Bool :=
  evaluate_group engine rule.conditions cart

mutual
/-- `evaluator.rs` `rule_uses_regex`: does the condition tree contain a
`RegexMatch` leaf (checked recursively)? -/
def rule_uses_regex (group : ConditionGroup) : Bool :=
  match group with
  | .mk _ criteria => criteria_use_regex criteria

/-- `Iterator::any` part of `rule_uses_regex`. -/
def criteria_use_regex (criteria : List Criterion) : Bool :=
  match criteria with
  | [] => false
  | c :: rest => criterion_uses_regex c || criteria_use_regex rest

/-- The per-criterion case of `rule_uses_regex`. -/
def criterion_uses_regex (criterion : Criterion) : Bool :=
  match criterion with
  | .Condition c => c.operator == ComparisonOperator.RegexMatch
  | .Group g => rule_uses_regex g
end

/-- `evaluator.rs` `ValidationError`. -/
structure ValidationError where
  rule_id : String
  message : String
deriving DecidableEq

/-- `evaluator.rs` `EvaluationResult`. -/
structure EvaluationResult where
  errors : List ValidationError
  rules_evaluated : Nat
  execution_time_us : Nat

/-- `evaluator.rs` `EvaluatorConfig` (guardrails). -/
structure EvaluatorConfig where
  max_rules : Nat
  max_regex_rules : Nat
  time_budget_ms : Nat

/-- `EvaluatorConfig::default()`: max_rules 100, max_regex_rules 30,
time budget 4 ms. -/
def EvaluatorConfig.default : EvaluatorConfig :=
  ⟨100, 30, 4⟩

/-- The validation error a firing rule appends. -/
def ruleError (rule : Rule) : ValidationError :=
  ⟨rule.id, rule.error_message⟩

/-- The `for rule in &config.rules` loop of
`evaluator.rs` `evaluate_rules_with_config`, with the running
`rules_evaluated` / `regex_count` counters explicit and elapsed time
abstracted as `clock : Nat → Nat` (milliseconds observed by the i-th poll;
`polls` counts polls made so far).  Returns the accumulated errors and the
final `rules_evaluated`. -/
def evalLoop (engine : RegexEngine) (cart : CartInput)
    (eval_config : EvaluatorConfig) (clock : Nat → Nat) :
    List Rule → Nat → Nat → Nat → List ValidationError × Nat
  | [], rules_evaluated, _, _ => ([], rules_evaluated)
  | rule :: rest, rules_evaluated, regex_count, polls =>
    -- Guardrail 1: max rules (break)
    if eval_config.max_rules ≤ rules_evaluated then
      ([], rules_evaluated)
    -- Skip disabled rules (continue)
    else if rule.enabled = false then
      evalLoop engine cart eval_config clock rest rules_evaluated regex_count polls
    else
      -- Guardrail 2: max regex rules (increment, then maybe continue)
      let regex_count' :=
        if rule_uses_regex rule.conditions = true then regex_count + 1 else regex_count
      if rule_uses_regex rule.conditions = true ∧
          eval_config.max_regex_rules < regex_count' then
        evalLoop engine cart eval_config clock rest rules_evaluated regex_count' polls
      -- Guardrail 3: time budget (break)
      else if eval_config.time_budget_ms < clock polls then
        ([], rules_evaluated)
      else
        -- Evaluate the rule; rules_evaluated increments regardless of outcome
        let tail :=
          evalLoop engine cart eval_config clock rest (rules_evaluated + 1)
            regex_count' (polls + 1)
        if evaluate_rule engine rule cart = true then
          (ruleError rule :: tail.1, tail.2)
        else
          tail

/-- `evaluator.rs` `evaluate_rules_with_config`: run the loop from zeroed
counters; `elapsed_us` is the final `Instant::elapsed().as_micros()`
reading reported as the metric. -/
def evaluate_rules_with_config (engine : RegexEngine) (config : RulesConfig)
    (cart : CartInput) (eval_config : EvaluatorConfig) (clock : Nat → Nat)
    (elapsed_us : Nat) : EvaluationResult :=
  let r := evalLoop engine cart eval_config clock config.rules 0 0 0
  ⟨r.1, r.2, elapsed_us⟩

/-- `evaluator.rs` `evaluate_rules`: the default-guardrail entry point. -/
def evaluate_rules (engine : RegexEngine) (config : RulesConfig)
    (cart : CartInput) (clock : Nat → Nat) (elapsed_us : Nat) : EvaluationResult :=
  evaluate_rules_with_config engine config cart EvaluatorConfig.default clock elapsed_us

/-- `gatekeep-validator/src/patterns.rs` `is_po_box`: the regex-free PO-Box
detector of the app extension (substring checks on the lowercased text). -/
def is_po_box (text : String) : Bool :=
  let lower := text.toLower
  str_contains lower "po box" ||
  str_contains lower "p.o. box" ||
  str_contains lower "p o box" ||
  str_contains lower "post office box"

/-- Metacharacters of the `regex` crate's syntax (the characters
`is_meta_character` reserves; `\x7b`/`\x7d` are the braces). -/
def regexMetaChars : List Char :=
  ['\\', '.', '+', '*', '?', '(', ')', '|', '[', ']', '\x7b', '\x7d',
   '^', '$', '#', '&', '-', '~']

/-- Modelled from the spec: the concrete `RegexEngine` used by witnesses.
The `regex` crate itself is an external dependency, missing from `src/`;
this engine is honest on the fragment the witnesses exercise:
a metacharacter-free pattern always compiles, and its `is_match` is exactly
substring occurrence.  Patterns containing metacharacters (never evaluated
by any theorem below) are mapped to a failed compile; preset matchers (never
evaluated by any theorem below except through `is_po_box`) use the
extension's regex-free `check_preset`, which handles `po_box` and rejects
the rest. -/
def litEngine : RegexEngine :=
  ⟨fun name text => if name = "po_box" then is_po_box text else false,
   fun p =>
     if p.toList.any (fun c => regexMetaChars.contains c) then none
     else some (fun s => str_contains s p)⟩

/-- Reference model (spec §4.5) of the sub-sequence of rules the driver
actually evaluates when neither the rule-count cap nor the time budget
interferes: disabled rules drop, and an enabled regex-using rule is kept
only while the running regex count stays within `max_regex`. -/
def keptRules (max_regex : Nat) : Nat → List Rule → List Rule
  | _, [] => []
  | c, rule :: rest =>
    if rule.enabled = false then keptRules max_regex c rest
    else if rule_uses_regex rule.conditions then
      if max_regex < c + 1 then keptRules max_regex (c + 1) rest
      else rule :: keptRules max_regex (c + 1) rest
    else rule :: keptRules max_regex c rest

/-- The enabled rules of a list whose condition tree uses regex. -/
def enabledRegexRules (rules : List Rule) : List Rule :=
  rules.filter (fun r => r.enabled && rule_uses_regex r.conditions)

/-- The enabled rules of a list whose condition tree does not use regex. -/
def enabledNonRegexRules (rules : List Rule) : List Rule :=
  rules.filter (fun r => r.enabled && !rule_uses_regex r.conditions)

/-- The pattern lookup misses exactly on names outside the nine registered
preset names, whatever the compiled matchers are. -/
theorem get_preset_pattern_eq_none (engine : RegexEngine) (name : String)
    (h : name ∉ list_preset_patterns) : get_preset_pattern engine name = none := by
  simp only [list_preset_patterns, List.mem_cons, List.not_mem_nil, or_false,
    not_or] at h
  obtain ⟨h1, h2, h3, h4, h5, h6, h7, h8, h9⟩ := h
  simp [get_preset_pattern, h1, h2, h3, h4, h5, h6, h7, h8, h9]

/-- The source's equality test distinguishes exactly three compatible
type pairings (String/String, Number/Number, Bool/Bool); every other pairing
is a type mismatch. -/
def equals_type_mismatch : FieldValue → Value → Bool
  | .String _, .str _ => false
  | .Number _, .num _ => false
  | .Bool _, .bool _ => false
  | _, _ => true

/-- C1 counterexample: the claim says comparing `Number 100.0` with `EQUALS`
against the literal `100.0000000001` returns `true`; the code returns
`false`, because the tolerance is `f64::EPSILON = 2⁻⁵² ≈ 2.2e-16`, far
smaller than the `1e-10` discrepancy. -/
theorem C1_equals_tolerance_counterexample :
    compare litEngine (.Number 100) .Equals (.num (1000000000001 / 10000000000))
      false = false := by
  simp only [compare, compare_equals, EPSILON, decide_eq_false_iff_not,
    abs_sub_lt_iff, not_and_or, not_lt]
  norm_num

/-- C1 amended: numeric `EQUALS` tolerates differences strictly below
`f64::EPSILON = 2⁻⁵²` only; both `100.0000000001` and `101.0` compared
against `Number 100.0` fall outside the tolerance and return `false`, while
any literal within `2⁻⁵²` of the field value returns `true`. -/
theorem C1_equals_epsilon_tolerance (engine : RegexEngine) (p : Bool) :
    compare engine (.Number 100) .Equals (.num (1000000000001 / 10000000000)) p = false ∧
    compare engine (.Number 100) .Equals (.num 101) p = false ∧
    ∀ n q : ℚ, |n - q| < EPSILON → compare engine (.Number n) .Equals (.num q) p = true := by
  refine ⟨?_, ?_, ?_⟩
  · simp only [compare, compare_equals, EPSILON, decide_eq_false_iff_not,
      abs_sub_lt_iff, not_and_or, not_lt]
    norm_num
  · simp only [compare, compare_equals, EPSILON, decide_eq_false_iff_not,
      abs_sub_lt_iff, not_and_or, not_lt]
    norm_num
  · intro n q h
    simp [compare, compare_equals, h]

/-- C1 witness: the tolerance hypothesis is satisfiable (field `100`,
literal `100`) and the amended theorem applies there. -/
theorem C1_equals_epsilon_tolerance_witness :
    |(100 : ℚ) - 100| < EPSILON ∧
    compare litEngine (.Number 100) .Equals (.num 100) false = true := by
  constructor
  · simp [EPSILON]
  · exact (C1_equals_epsilon_tolerance litEngine false).2.2 100 100 (by simp [EPSILON])

/-- C2 counterexample: `"b"` is not a registered preset name, yet a
`RegexMatch` condition with `is_preset = true` and literal `"b"` against
field value `"abc"` returns `true`, not `false` — the unknown preset name
falls through to the ad hoc pattern path (the compiled pattern `b` matches
any string containing `b`). -/
theorem C2_unknown_preset_counterexample :
    "b" ∉ list_preset_patterns ∧
    compare litEngine (.String "abc") .RegexMatch (.str "b") true = true := by
  exact ⟨by decide, by decide⟩

/-- C2 amended: for a literal name outside the nine registered preset
names, `is_preset = true` does not short-circuit to `false`; the lookup
misses and the comparison falls back to compiling the literal as an ad hoc
pattern, giving exactly the `is_preset = false` behaviour (so it returns
`false` only when that ad hoc match or compile fails). -/
theorem C2_unknown_preset_falls_back (engine : RegexEngine) (fv : FieldValue)
    (name : String) (h : name ∉ list_preset_patterns) :
    compare engine fv .RegexMatch (.str name) true =
      compare engine fv .RegexMatch (.str name) false := by
  simp [compare, compare_regex, Value.as_str, get_preset_pattern_eq_none engine name h]

/-- C2 witness: the unknown-name hypothesis is satisfiable (`"b"`) and the
amended theorem applies there. -/
theorem C2_unknown_preset_falls_back_witness :
    "b" ∉ list_preset_patterns ∧
    compare litEngine (.String "abc") .RegexMatch (.str "b") true =
      compare litEngine (.String "abc") .RegexMatch (.str "b") false := by
  exact ⟨by decide,
    C2_unknown_preset_falls_back litEngine (.String "abc") "b" (by decide)⟩

/-- C3 counterexample: the claim says a type mismatch makes `NOT_EQUALS`
return `false`; comparing field `String "a"` with `NOT_EQUALS` against the
numeric literal `1` (a mismatch) returns `true`. -/
theorem C3_mismatch_counterexample :
    compare litEngine (.String "a") .NotEquals (.num 1) false = true := by
  decide

/-- C3 amended: a type mismatch between the field value's variant and the
literal's type makes `EQUALS` return `false` and — `NOT_EQUALS` being its
exact negation — makes `NOT_EQUALS` return `true`, not `false`. -/
theorem C3_mismatch_equals_false_notequals_true (engine : RegexEngine)
    (fv : FieldValue) (v : Value) (p : Bool)
    (h : equals_type_mismatch fv v = true) :
    compare engine fv .Equals v p = false ∧ compare engine fv .NotEquals v p = true := by
  have heq : compare_equals fv v = false := by
    cases fv <;> cases v <;> simp_all [equals_type_mismatch, compare_equals]
  simp [compare, heq]

/-- C3 witness: the mismatch hypothesis is satisfiable (`String "a"` vs the
numeric literal `1`) and the amended theorem applies there. -/
theorem C3_mismatch_witness :
    equals_type_mismatch (.String "a") (.num 1) = true ∧
    (compare litEngine (.String "a") .Equals (.num 1) false = false ∧
     compare litEngine (.String "a") .NotEquals (.num 1) false = true) :=
  ⟨rfl, C3_mismatch_equals_false_notequals_true litEngine (.String "a") (.num 1) false rfl⟩

/-- C4: a condition whose field path resolves to nothing evaluates to
`false`, for every operator, literal, preset flag and regex engine — the
comparator's inputs never matter, so it is never consulted. -/
theorem C4_unknown_field_false (engine : RegexEngine) (path : String)
    (op : ComparisonOperator) (v : Value) (p : Bool) (cart : CartInput)
    (h : cart.get_field path = none) :
    evaluate_condition engine ⟨path, op, v, p⟩ cart = false := by
  simp [evaluate_condition, h]

/-- C4 witness: `"invalid.field"` is not a valid path of the default cart,
and a `NOT_EQUALS` condition on it evaluates to `false`. -/
theorem C4_unknown_field_false_witness :
    CartInput.default.get_field "invalid.field" = none ∧
    evaluate_condition litEngine ⟨"invalid.field", .NotEquals, .num 1, false⟩
      CartInput.default = false :=
  ⟨rfl, C4_unknown_field_false litEngine "invalid.field" .NotEquals (.num 1) false
    CartInput.default rfl⟩

/-- C7: for every record and engine, a `ConditionGroup` with an empty
criteria list evaluates to `true` under `AND` and `false` under `OR`. -/
theorem C7_empty_group_identities (engine : RegexEngine) (cart : CartInput) :
    evaluate_group engine (.mk .And []) cart = true ∧
    evaluate_group engine (.mk .Or []) cart = false :=
  ⟨rfl, rfl⟩

/-- C9: the comparator's negated operators are exact boolean negations of
their positive counterparts, and in particular `NOT_IN` against a non-array
literal returns `true`. -/
theorem C9_negation_identities (engine : RegexEngine) (fv : FieldValue)
    (v : Value) (p : Bool) :
    compare engine fv .NotEquals v p = !compare engine fv .Equals v p ∧
    compare engine fv .NotContains v p = !compare engine fv .Contains v p ∧
    compare engine fv .NotIn v p = !compare engine fv .In v p ∧
    (v.isArr = false → compare engine fv .NotIn v p = true) := by
  refine ⟨rfl, rfl, rfl, ?_⟩
  intro h
  have hin : compare_in fv v = false := by
    cases v <;> simp_all [Value.isArr, compare_in]
  simp [compare, hin]

/-- C9 witness: the non-array hypothesis is satisfiable (numeric literal
`1`) and the theorem applies there. -/
theorem C9_negation_identities_witness :
    (Value.num 1).isArr = false ∧
    compare litEngine (.String "x") .NotIn (.num 1) false = true :=
  ⟨rfl, (C9_negation_identities litEngine (.String "x") (.num 1) false).2.2.2 rfl⟩

/-- As long as no clock reading crosses the time budget, the loop's outcome
does not depend on the clock (nor on the poll index it starts from). -/
theorem evalLoop_clock_eq (engine : RegexEngine) (cart : CartInput)
    (cfg : EvaluatorConfig) (c1 c2 : Nat → Nat)
    (h1 : ∀ i, c1 i ≤ cfg.time_budget_ms) (h2 : ∀ i, c2 i ≤ cfg.time_budget_ms) :
    ∀ (rules : List Rule) (re rc p q : Nat),
      evalLoop engine cart cfg c1 rules re rc p =
        evalLoop engine cart cfg c2 rules re rc q := by
  intro rules
  induction rules with
  | nil => intro re rc p q; rfl
  | cons rule rest ih =>
    intro re rc p q
    have ht1 : ¬ cfg.time_budget_ms < c1 p := Nat.not_lt.2 (h1 p)
    have ht2 : ¬ cfg.time_budget_ms < c2 q := Nat.not_lt.2 (h2 q)
    by_cases hmax : cfg.max_rules ≤ re
    · simp [evalLoop, hmax]
    · by_cases hen : rule.enabled = false
      · simp only [evalLoop, if_neg hmax, if_pos hen]
        exact ih re rc p q
      · by_cases hru : rule_uses_regex rule.conditions = true
        · by_cases hskip : cfg.max_regex_rules < rc + 1
          · simp only [evalLoop, if_neg hmax, if_neg hen, hru, eq_self_iff_true,
              if_true, true_and, if_pos hskip]
            exact ih re (rc + 1) p q
          · simp only [evalLoop, if_neg hmax, if_neg hen, hru, eq_self_iff_true,
              if_true, true_and, if_neg hskip, if_neg ht1, if_neg ht2]
            rw [ih (re + 1) (rc + 1) (p + 1) (q + 1)]
        · have hru' : rule_uses_regex rule.conditions = false := by
            simpa only [Bool.not_eq_true] using hru
          simp only [evalLoop, if_neg hmax, if_neg hen, hru', Bool.false_eq_true,
            false_and, if_false, if_neg ht1, if_neg ht2]
          rw [ih (re + 1) rc (p + 1) (q + 1)]

/-- The accumulated errors are, in order, drawn from the enabled rules:
the error list is a sublist of the enabled rules' error records. -/
theorem evalLoop_errors_sublist (engine : RegexEngine) (cart : CartInput)
    (cfg : EvaluatorConfig) (clock : Nat → Nat) :
    ∀ (rules : List Rule) (re rc p : Nat),
      List.Sublist (evalLoop engine cart cfg clock rules re rc p).1
        ((rules.filter (fun r => r.enabled)).map ruleError) := by
  intro rules
  induction rules with
  | nil => intro re rc p; simp [evalLoop]
  | cons rule rest ih =>
    intro re rc p
    by_cases hmax : cfg.max_rules ≤ re
    · simp [evalLoop, hmax]
    · by_cases hen : rule.enabled = false
      · simp only [evalLoop, if_neg hmax, if_pos hen, List.filter_cons, hen,
          Bool.false_eq_true, if_false]
        exact ih re rc p
      · have hen' : rule.enabled = true := by
          simpa only [Bool.not_eq_false] using hen
        have hmono : List.Sublist ((rest.filter (fun r => r.enabled)).map ruleError)
            ((((rule :: rest).filter (fun r => r.enabled))).map ruleError) := by
          simp only [List.filter_cons, hen', if_true, List.map_cons]
          exact (List.sublist_cons_self (ruleError rule) _)
        by_cases hru : rule_uses_regex rule.conditions = true
        · by_cases hskip : cfg.max_regex_rules < rc + 1
          · simp only [evalLoop, if_neg hmax, if_neg hen, hru, eq_self_iff_true,
              if_true, true_and, if_pos hskip]
            exact (ih re (rc + 1) p).trans hmono
          · simp only [evalLoop, if_neg hmax, if_neg hen, hru, eq_self_iff_true,
              if_true, true_and, if_neg hskip]
            by_cases ht : cfg.time_budget_ms < clock p
            · simp [ht]
            · simp only [if_neg ht]
              by_cases hfire : evaluate_rule engine rule cart = true
              · simp only [if_pos hfire, List.filter_cons, hen', if_true, List.map_cons]
                exact (ih (re + 1) (rc + 1) (p + 1)).cons₂ (ruleError rule)
              · simp only [if_neg hfire]
                exact (ih (re + 1) (rc + 1) (p + 1)).trans hmono
        · have hru' : rule_uses_regex rule.conditions = false := by
            simpa only [Bool.not_eq_true] using hru
          simp only [evalLoop, if_neg hmax, if_neg hen, hru', Bool.false_eq_true,
            false_and, if_false]
          by_cases ht : cfg.time_budget_ms < clock p
          · simp [ht]
          · simp only [if_neg ht]
            by_cases hfire : evaluate_rule engine rule cart = true
            · simp only [if_pos hfire, List.filter_cons, hen', if_true, List.map_cons]
              exact (ih (re + 1) rc (p + 1)).cons₂ (ruleError rule)
            · simp only [if_neg hfire]
              exact (ih (re + 1) rc (p + 1)).trans hmono

/-- Each evaluated rule contributes at most one error: the error count plus
the count the loop started from is bounded by the count it returns. -/
theorem evalLoop_errors_length (engine : RegexEngine) (cart : CartInput)
    (cfg : EvaluatorConfig) (clock : Nat → Nat) :
    ∀ (rules : List Rule) (re rc p : Nat),
      (evalLoop engine cart cfg clock rules re rc p).1.length + re ≤
        (evalLoop engine cart cfg clock rules re rc p).2 := by
  intro rules
  induction rules with
  | nil => intro re rc p; simp [evalLoop]
  | cons rule rest ih =>
    intro re rc p
    by_cases hmax : cfg.max_rules ≤ re
    · simp [evalLoop, hmax]
    · by_cases hen : rule.enabled = false
      · simp only [evalLoop, if_neg hmax, if_pos hen]
        exact ih re rc p
      · by_cases hru : rule_uses_regex rule.conditions = true
        · by_cases hskip : cfg.max_regex_rules < rc + 1
          · simp only [evalLoop, if_neg hmax, if_neg hen, hru, eq_self_iff_true,
              if_true, true_and, if_pos hskip]
            exact ih re (rc + 1) p
          · simp only [evalLoop, if_neg hmax, if_neg hen, hru, eq_self_iff_true,
              if_true, true_and, if_neg hskip]
            by_cases ht : cfg.time_budget_ms < clock p
            · simp [ht]
            · simp only [if_neg ht]
              have := ih (re + 1) (rc + 1) (p + 1)
              by_cases hfire : evaluate_rule engine rule cart = true
              · simp only [if_pos hfire, List.length_cons]
                omega
              · simp only [if_neg hfire]
                omega
        · have hru' : rule_uses_regex rule.conditions = false := by
            simpa only [Bool.not_eq_true] using hru
          simp only [evalLoop, if_neg hmax, if_neg hen, hru', Bool.false_eq_true,
            false_and, if_false]
          by_cases ht : cfg.time_budget_ms < clock p
          · simp [ht]
          · simp only [if_neg ht]
            have := ih (re + 1) rc (p + 1)
            by_cases hfire : evaluate_rule engine rule cart = true
            · simp only [if_pos hfire, List.length_cons]
              omega
            · simp only [if_neg hfire]
              omega

/-- Starting from a count within the max-rules cap, the loop's returned
count stays within the cap. -/
theorem evalLoop_evaluated_le (engine : RegexEngine) (cart : CartInput)
    (cfg : EvaluatorConfig) (clock : Nat → Nat) :
    ∀ (rules : List Rule) (re rc p : Nat), re ≤ cfg.max_rules →
      (evalLoop engine cart cfg clock rules re rc p).2 ≤ cfg.max_rules := by
  intro rules
  induction rules with
  | nil => intro re rc p h; simpa [evalLoop] using h
  | cons rule rest ih =>
    intro re rc p h
    by_cases hmax : cfg.max_rules ≤ re
    · simpa [evalLoop, hmax] using h
    · by_cases hen : rule.enabled = false
      · simp only [evalLoop, if_neg hmax, if_pos hen]
        exact ih re rc p h
      · by_cases hru : rule_uses_regex rule.conditions = true
        · by_cases hskip : cfg.max_regex_rules < rc + 1
          · simp only [evalLoop, if_neg hmax, if_neg hen, hru, eq_self_iff_true,
              if_true, true_and, if_pos hskip]
            exact ih re (rc + 1) p h
          · simp only [evalLoop, if_neg hmax, if_neg hen, hru, eq_self_iff_true,
              if_true, true_and, if_neg hskip]
            by_cases ht : cfg.time_budget_ms < clock p
            · simpa [ht] using h
            · simp only [if_neg ht]
              have hnext := ih (re + 1) (rc + 1) (p + 1) (by omega)
              by_cases hfire : evaluate_rule engine rule cart = true
              · simpa only [if_pos hfire] using hnext
              · simpa only [if_neg hfire] using hnext
        · have hru' : rule_uses_regex rule.conditions = false := by
            simpa only [Bool.not_eq_true] using hru
          simp only [evalLoop, if_neg hmax, if_neg hen, hru', Bool.false_eq_true,
            false_and, if_false]
          by_cases ht : cfg.time_budget_ms < clock p
          · simpa [ht] using h
          · simp only [if_neg ht]
            have hnext := ih (re + 1) rc (p + 1) (by omega)
            by_cases hfire : evaluate_rule engine rule cart = true
            · simpa only [if_pos hfire] using hnext
            · simpa only [if_neg hfire] using hnext

/-- Length of the kept-rule list: all enabled non-regex rules survive, and
of the enabled regex rules only those within the remaining quota do. -/
theorem keptRules_length (M : Nat) :
    ∀ (rules : List Rule) (c : Nat),
      (keptRules M c rules).length =
        (enabledNonRegexRules rules).length +
          min (M - c) (enabledRegexRules rules).length := by
  intro rules
  induction rules with
  | nil => intro c; simp [keptRules, enabledNonRegexRules, enabledRegexRules]
  | cons rule rest ih =>
    intro c
    by_cases hen : rule.enabled = false
    · simp only [keptRules, if_pos hen, enabledNonRegexRules, enabledRegexRules,
        List.filter_cons, hen, Bool.false_and, Bool.false_eq_true, if_false]
      exact ih c
    · have hen' : rule.enabled = true := by simpa only [Bool.not_eq_false] using hen
      by_cases hru : rule_uses_regex rule.conditions = true
      · by_cases hskip : M < c + 1
        · simp only [keptRules, hen', Bool.true_eq_false, if_false, hru, if_true,
            if_pos hskip, enabledNonRegexRules, enabledRegexRules,
            List.filter_cons, Bool.true_and, Bool.not_true, Bool.false_eq_true,
            List.length_cons]
          rw [ih (c + 1)]
          simp only [enabledNonRegexRules, enabledRegexRules]
          omega
        · simp only [keptRules, hen', Bool.true_eq_false, if_false, hru, if_true,
            if_neg hskip, enabledNonRegexRules, enabledRegexRules,
            List.filter_cons, Bool.true_and, Bool.not_true, Bool.false_eq_true,
            List.length_cons]
          rw [ih (c + 1)]
          simp only [enabledNonRegexRules, enabledRegexRules]
          omega
      · have hru' : rule_uses_regex rule.conditions = false := by
          simpa only [Bool.not_eq_true] using hru
        simp only [keptRules, hen', Bool.true_eq_false, hru', Bool.false_eq_true,
          if_false, enabledNonRegexRules, enabledRegexRules, List.filter_cons,
          Bool.true_and, Bool.not_false, if_true, List.length_cons]
        rw [ih c]
        simp only [enabledNonRegexRules, enabledRegexRules]
        omega

/-- The regex-using rules among the kept rules are exactly the first
`M - c` enabled regex-using rules, in order. -/
theorem keptRules_filter_regex (M : Nat) :
    ∀ (rules : List Rule) (c : Nat),
      (keptRules M c rules).filter (fun r => rule_uses_regex r.conditions) =
        (enabledRegexRules rules).take (M - c) := by
  intro rules
  induction rules with
  | nil => intro c; simp [keptRules, enabledRegexRules]
  | cons rule rest ih =>
    intro c
    by_cases hen : rule.enabled = false
    · simp only [keptRules, if_pos hen, enabledRegexRules, List.filter_cons, hen,
        Bool.false_and, Bool.false_eq_true, if_false]
      exact ih c
    · have hen' : rule.enabled = true := by simpa only [Bool.not_eq_false] using hen
      by_cases hru : rule_uses_regex rule.conditions = true
      · by_cases hskip : M < c + 1
        · have hc : M - c = 0 := by omega
          have hc1 : M - (c + 1) = 0 := by omega
          simp only [keptRules, hen', Bool.true_eq_false, if_false, hru, if_true,
            if_pos hskip, enabledRegexRules, List.filter_cons, Bool.true_and,
            hc, List.take_zero]
          rw [ih (c + 1)]
          simp only [enabledRegexRules, hc1, List.take_zero]
        · have hc : M - c = (M - (c + 1)) + 1 := by omega
          simp only [keptRules, hen', Bool.true_eq_false, if_false, hru, if_true,
            if_neg hskip, enabledRegexRules, List.filter_cons, Bool.true_and,
            hc, List.take_succ_cons]
          rw [ih (c + 1)]
          simp only [enabledRegexRules]
      · have hru' : rule_uses_regex rule.conditions = false := by
          simpa only [Bool.not_eq_true] using hru
        simp only [keptRules, hen', Bool.true_eq_false, hru', Bool.false_eq_true,
          if_false, enabledRegexRules, List.filter_cons, Bool.true_and]
        rw [ih c]
        simp only [enabledRegexRules]

/-- Every enabled non-regex rule is kept, whatever the quota state. -/
theorem mem_keptRules (M : Nat) :
    ∀ (rules : List Rule) (c : Nat) (r : Rule), r ∈ rules → r.enabled = true →
      rule_uses_regex r.conditions = false → r ∈ keptRules M c rules := by
  intro rules
  induction rules with
  | nil => intro c r h; exact absurd h (List.not_mem_nil r)
  | cons rule rest ih =>
    intro c r hmem hren hrreg
    rcases List.mem_cons.mp hmem with rfl | hmem'
    · simp only [keptRules, hren, Bool.true_eq_false, if_false, hrreg,
        Bool.false_eq_true]
      exact List.mem_cons_self r _
    · by_cases hen : rule.enabled = false
      · simp only [keptRules, if_pos hen]
        exact ih c r hmem' hren hrreg
      · have hen' : rule.enabled = true := by simpa only [Bool.not_eq_false] using hen
        by_cases hru : rule_uses_regex rule.conditions = true
        · by_cases hskip : M < c + 1
          · simp only [keptRules, hen', Bool.true_eq_false, if_false, hru, if_true,
              if_pos hskip]
            exact ih (c + 1) r hmem' hren hrreg
          · simp only [keptRules, hen', Bool.true_eq_false, if_false, hru, if_true,
              if_neg hskip]
            exact List.mem_cons_of_mem rule (ih (c + 1) r hmem' hren hrreg)
        · have hru' : rule_uses_regex rule.conditions = false := by
            simpa only [Bool.not_eq_true] using hru
          simp only [keptRules, hen', Bool.true_eq_false, hru', Bool.false_eq_true,
            if_false]
          exact List.mem_cons_of_mem rule (ih c r hmem' hren hrreg)

/-- The driver loop refines `keptRules`: when the clock stays within the
budget and the kept rules fit under the max-rules cap, the loop evaluates
exactly the kept rules — the errors are the firing kept rules' records in
order, and the returned count grows by the number of kept rules. -/
theorem evalLoop_eq_keptRules (engine : RegexEngine) (cart : CartInput)
    (cfg : EvaluatorConfig) (clock : Nat → Nat)
    (hclock : ∀ i, clock i ≤ cfg.time_budget_ms) :
    ∀ (rules : List Rule) (re rc p : Nat),
      re + (keptRules cfg.max_regex_rules rc rules).length ≤ cfg.max_rules →
      evalLoop engine cart cfg clock rules re rc p =
        (((keptRules cfg.max_regex_rules rc rules).filter
            (fun r => evaluate_rule engine r cart)).map ruleError,
         re + (keptRules cfg.max_regex_rules rc rules).length) := by
  intro rules
  induction rules with
  | nil => intro re rc p h; simp [evalLoop, keptRules]
  | cons rule rest ih =>
    intro re rc p h
    by_cases hmax : cfg.max_rules ≤ re
    · have h0 : (keptRules cfg.max_regex_rules rc (rule :: rest)).length = 0 := by
        omega
      have hk : keptRules cfg.max_regex_rules rc (rule :: rest) = [] :=
        List.length_eq_zero.mp h0
      simp [evalLoop, hmax, hk]
    · have ht : ¬ cfg.time_budget_ms < clock p := Nat.not_lt.2 (hclock p)
      by_cases hen : rule.enabled = false
      · have hk : keptRules cfg.max_regex_rules rc (rule :: rest) =
            keptRules cfg.max_regex_rules rc rest := by
          simp [keptRules, hen]
        rw [hk] at h
        simp only [evalLoop, if_neg hmax, if_pos hen, hk]
        exact ih re rc p h
      · have hen' : rule.enabled = true := by simpa only [Bool.not_eq_false] using hen
        by_cases hru : rule_uses_regex rule.conditions = true
        · by_cases hskip : cfg.max_regex_rules < rc + 1
          · have hk : keptRules cfg.max_regex_rules rc (rule :: rest) =
                keptRules cfg.max_regex_rules (rc + 1) rest := by
              simp [keptRules, hen', Bool.true_eq_false, hru, hskip]
            rw [hk] at h
            simp only [evalLoop, if_neg hmax, if_neg hen, hru, eq_self_iff_true,
              if_true, true_and, if_pos hskip, hk]
            exact ih re (rc + 1) p h
          · have hk : keptRules cfg.max_regex_rules rc (rule :: rest) =
                rule :: keptRules cfg.max_regex_rules (rc + 1) rest := by
              simp [keptRules, hen', Bool.true_eq_false, hru, hskip]
            rw [hk] at h ⊢
            simp only [List.length_cons] at h
            simp only [evalLoop, if_neg hmax, if_neg hen, hru, eq_self_iff_true,
              if_true, true_and, if_neg hskip, if_neg ht]
            rw [ih (re + 1) (rc + 1) (p + 1) (by omega)]
            by_cases hfire : evaluate_rule engine rule cart = true
            · simp only [if_pos hfire, List.filter_cons, hfire, if_true,
                List.map_cons, List.length_cons, Prod.mk.injEq]
              exact ⟨trivial, by omega⟩
            · have hfire' : evaluate_rule engine rule cart = false := by
                simpa only [Bool.not_eq_true] using hfire
              simp only [if_neg hfire, List.filter_cons, hfire',
                Bool.false_eq_true, if_false, List.length_cons, Prod.mk.injEq]
              exact ⟨trivial, by omega⟩
        · have hru' : rule_uses_regex rule.conditions = false := by
            simpa only [Bool.not_eq_true] using hru
          have hk : keptRules cfg.max_regex_rules rc (rule :: rest) =
              rule :: keptRules cfg.max_regex_rules rc rest := by
            simp [keptRules, hen', Bool.true_eq_false, hru', Bool.false_eq_true]
          rw [hk] at h ⊢
          simp only [List.length_cons] at h
          simp only [evalLoop, if_neg hmax, if_neg hen, hru', Bool.false_eq_true,
            false_and, if_false, if_neg ht]
          rw [ih (re + 1) rc (p + 1) (by omega)]
          by_cases hfire : evaluate_rule engine rule cart = true
          · simp only [if_pos hfire, List.filter_cons, hfire, if_true,
              List.map_cons, List.length_cons, Prod.mk.injEq]
            exact ⟨trivial, by omega⟩
          · have hfire' : evaluate_rule engine rule cart = false := by
              simpa only [Bool.not_eq_true] using hfire
            simp only [if_neg hfire, List.filter_cons, hfire',
              Bool.false_eq_true, if_false, List.length_cons, Prod.mk.injEq]
            exact ⟨trivial, by omega⟩

/-- When every rule is enabled and none uses regex, the loop evaluates
exactly the first `max_rules - re` rules and then stops (clock within
budget). -/
theorem evalLoop_truncation (engine : RegexEngine) (cart : CartInput)
    (cfg : EvaluatorConfig) (clock : Nat → Nat)
    (hclock : ∀ i, clock i ≤ cfg.time_budget_ms) :
    ∀ (rules : List Rule) (re rc p : Nat),
      (∀ r ∈ rules, r.enabled = true) →
      (∀ r ∈ rules, rule_uses_regex r.conditions = false) →
      evalLoop engine cart cfg clock rules re rc p =
        (((rules.take (cfg.max_rules - re)).filter
            (fun r => evaluate_rule engine r cart)).map ruleError,
         re + min (cfg.max_rules - re) rules.length) := by
  intro rules
  induction rules with
  | nil => intro re rc p _ _; simp [evalLoop]
  | cons rule rest ih =>
    intro re rc p hall hreg
    have hen' : rule.enabled = true := hall rule (List.mem_cons_self rule rest)
    have hru' : rule_uses_regex rule.conditions = false :=
      hreg rule (List.mem_cons_self rule rest)
    have hen : ¬ rule.enabled = false := by simp [hen']
    by_cases hmax : cfg.max_rules ≤ re
    · have hz : cfg.max_rules - re = 0 := by omega
      simp [evalLoop, hmax, hz]
    · have ht : ¬ cfg.time_budget_ms < clock p := Nat.not_lt.2 (hclock p)
      have hsucc : cfg.max_rules - re = (cfg.max_rules - (re + 1)) + 1 := by omega
      simp only [evalLoop, if_neg hmax, if_neg hen, hru', Bool.false_eq_true,
        false_and, if_false, if_neg ht]
      rw [ih (re + 1) rc (p + 1)
        (fun r hr => hall r (List.mem_cons_of_mem rule hr))
        (fun r hr => hreg r (List.mem_cons_of_mem rule hr))]
      rw [hsucc, List.take_succ_cons]
      by_cases hfire : evaluate_rule engine rule cart = true
      · simp only [if_pos hfire, List.filter_cons, hfire, if_true,
          List.map_cons, List.length_cons, Prod.mk.injEq]
        exact ⟨trivial, by omega⟩
      · have hfire' : evaluate_rule engine rule cart = false := by
          simpa only [Bool.not_eq_true] using hfire
        simp only [if_neg hfire, List.filter_cons, hfire', Bool.false_eq_true,
          if_false, List.length_cons, Prod.mk.injEq]
        exact ⟨trivial, by omega⟩

/-- A concrete always-firing enabled rule (empty AND group) for witnesses. -/
def wEmptyRule (i msg : String) : Rule :=
  ⟨i, i, 1, true, msg, .mk .And []⟩

/-- A concrete enabled regex-using rule for witnesses (its field path is
invalid, so it never fires and no regex is ever executed). -/
def wRegexRule (i msg : String) : Rule :=
  ⟨i, i, 1, true, msg, .mk .And [.Condition ⟨"x", .RegexMatch, .str "po_box", true⟩]⟩

/-- Witness configuration for the regex-quota claim: two regex rules
interleaved with a non-regex rule. -/
def wConfigC5 : RulesConfig :=
  ⟨"1", 0, [wRegexRule "r1" "m1", wEmptyRule "n1" "m2", wRegexRule "r2" "m3"]⟩

/-- Witness configuration for the max-rules claim: six enabled non-regex
rules. -/
def wConfigC6 : RulesConfig :=
  ⟨"1", 0, [wEmptyRule "a" "m1", wEmptyRule "b" "m2", wEmptyRule "c" "m3",
            wEmptyRule "d" "m4", wEmptyRule "e" "m5", wEmptyRule "f" "m6"]⟩

/-- Witness configuration for the clock claims: one enabled rule. -/
def wConfigC8 : RulesConfig :=
  ⟨"1", 0, [wEmptyRule "a" "m"]⟩

/-- C5: with `max_regex_rules = M`, more than `M` enabled regex-using rules
interleaved with non-regex rules (everything fitting under the max-rules cap
and the clock within budget), the driver evaluates exactly the kept rules:
its count is the enabled non-regex count plus `M`; its errors are the firing
kept rules' records; the kept regex rules are exactly the first `M` enabled
regex rules in order (later ones are skipped without counting and without
ending the pass); and every enabled non-regex rule — including those after
the quota is exhausted — is still kept and evaluated normally. -/
theorem C5_regex_quota (engine : RegexEngine) (config : RulesConfig)
    (cart : CartInput) (cfg : EvaluatorConfig) (clock : Nat → Nat) (u : Nat)
    (hclock : ∀ i, clock i ≤ cfg.time_budget_ms)
    (hR : cfg.max_regex_rules < (enabledRegexRules config.rules).length)
    (hmax : (enabledNonRegexRules config.rules).length + cfg.max_regex_rules ≤
      cfg.max_rules) :
    (evaluate_rules_with_config engine config cart cfg clock u).rules_evaluated =
      (enabledNonRegexRules config.rules).length + cfg.max_regex_rules ∧
    (evaluate_rules_with_config engine config cart cfg clock u).errors =
      ((keptRules cfg.max_regex_rules 0 config.rules).filter
        (fun r => evaluate_rule engine r cart)).map ruleError ∧
    (keptRules cfg.max_regex_rules 0 config.rules).filter
        (fun r => rule_uses_regex r.conditions) =
      (enabledRegexRules config.rules).take cfg.max_regex_rules ∧
    ∀ r ∈ config.rules, r.enabled = true → rule_uses_regex r.conditions = false →
      r ∈ keptRules cfg.max_regex_rules 0 config.rules := by
  have hlen : (keptRules cfg.max_regex_rules 0 config.rules).length =
      (enabledNonRegexRules config.rules).length + cfg.max_regex_rules := by
    rw [keptRules_length]
    omega
  have hmain := evalLoop_eq_keptRules engine cart cfg clock hclock config.rules
    0 0 0 (by omega)
  refine ⟨?_, ?_, ?_, ?_⟩
  · simp only [evaluate_rules_with_config, hmain]
    omega
  · simp only [evaluate_rules_with_config, hmain]
  · rw [keptRules_filter_regex]
    simp
  · intro r h1 h2 h3
    exact mem_keptRules cfg.max_regex_rules config.rules 0 r h1 h2 h3

/-- C5 witness: with `M = 1` and the three-rule interleaving
`[regex r1, non-regex n1, regex r2]`, the hypotheses hold and the driver
evaluates two rules (r1 and n1; r2 is skipped, n1 still evaluated). -/
theorem C5_regex_quota_witness :
    (1 < (enabledRegexRules wConfigC5.rules).length ∧
     (enabledNonRegexRules wConfigC5.rules).length + 1 ≤ 100) ∧
    (evaluate_rules_with_config litEngine wConfigC5 CartInput.default
        ⟨100, 1, 4⟩ (fun _ => 0) 0).rules_evaluated =
      (enabledNonRegexRules wConfigC5.rules).length + 1 :=
  ⟨⟨by decide, by decide⟩,
    (C5_regex_quota litEngine wConfigC5 CartInput.default ⟨100, 1, 4⟩
      (fun _ => 0) 0 (fun _ => Nat.zero_le 4) (by decide) (by decide)).1⟩

/-- C6: with `max_rules = N`, all of the configuration's `N + 5` rules
enabled and regex-free, and the clock within budget, the driver evaluates
exactly the first `N` rules in declaration order — `rules_evaluated` is
exactly `N` and the errors come solely from the first `N` rules (the
remaining five are dropped without any further report). -/
theorem C6_max_rules_cap (engine : RegexEngine) (config : RulesConfig)
    (cart : CartInput) (cfg : EvaluatorConfig) (clock : Nat → Nat) (u : Nat)
    (hclock : ∀ i, clock i ≤ cfg.time_budget_ms)
    (hen : ∀ r ∈ config.rules, r.enabled = true)
    (hreg : ∀ r ∈ config.rules, rule_uses_regex r.conditions = false)
    (hlen : config.rules.length = cfg.max_rules + 5) :
    (evaluate_rules_with_config engine config cart cfg clock u).rules_evaluated =
      cfg.max_rules ∧
    (evaluate_rules_with_config engine config cart cfg clock u).errors =
      ((config.rules.take cfg.max_rules).filter
        (fun r => evaluate_rule engine r cart)).map ruleError := by
  have hmain := evalLoop_truncation engine cart cfg clock hclock config.rules
    0 0 0 hen hreg
  constructor
  · simp only [evaluate_rules_with_config, hmain]
    omega
  · simp only [evaluate_rules_with_config, hmain, Nat.sub_zero]

/-- C6 witness: with `N = 1` and six enabled non-regex rules the
hypotheses hold and exactly one rule is evaluated. -/
theorem C6_max_rules_cap_witness :
    ((∀ r ∈ wConfigC6.rules, r.enabled = true) ∧
     (∀ r ∈ wConfigC6.rules, rule_uses_regex r.conditions = false) ∧
     wConfigC6.rules.length = 1 + 5) ∧
    (evaluate_rules_with_config litEngine wConfigC6 CartInput.default
        ⟨1, 30, 4⟩ (fun _ => 0) 0).rules_evaluated = 1 :=
  ⟨⟨by decide, by decide, by decide⟩,
    (C6_max_rules_cap litEngine wConfigC6 CartInput.default ⟨1, 30, 4⟩
      (fun _ => 0) 0 (fun _ => Nat.zero_le 4) (by decide) (by decide)
      (by decide)).1⟩

/-- C8 counterexample: the claim says the clock readings polled between
rules never influence which rules are evaluated; but with the default 4 ms
budget, a run whose first poll reads 0 ms evaluates the rule while a run
whose first poll reads 5 ms terminates before it — the two runs report
different `rules_evaluated`. -/
theorem C8_clock_influence_counterexample :
    (evaluate_rules_with_config litEngine wConfigC8 CartInput.default
        EvaluatorConfig.default (fun _ => 0) 0).rules_evaluated ≠
    (evaluate_rules_with_config litEngine wConfigC8 CartInput.default
        EvaluatorConfig.default (fun _ => 5) 0).rules_evaluated := by
  decide

/-- C8 amended: the driver is deterministic given the clock; as long as no
polled reading exceeds the time budget, the errors and `rules_evaluated`
are moreover independent of the clock entirely, and only the reported
elapsed-time metric can differ between two runs.  (When a reading does
cross the budget, the pass truncates — the counterexample.) -/
theorem C8_determinism_modulo_clock (engine : RegexEngine) (config : RulesConfig)
    (cart : CartInput) (cfg : EvaluatorConfig) (c1 c2 : Nat → Nat) (u1 u2 : Nat)
    (h1 : ∀ i, c1 i ≤ cfg.time_budget_ms) (h2 : ∀ i, c2 i ≤ cfg.time_budget_ms) :
    (evaluate_rules_with_config engine config cart cfg c1 u1).errors =
      (evaluate_rules_with_config engine config cart cfg c2 u2).errors ∧
    (evaluate_rules_with_config engine config cart cfg c1 u1).rules_evaluated =
      (evaluate_rules_with_config engine config cart cfg c2 u2).rules_evaluated := by
  have hmain := evalLoop_clock_eq engine cart cfg c1 c2 h1 h2 config.rules 0 0 0 0
  constructor
  · simp only [evaluate_rules_with_config, hmain]
  · simp only [evaluate_rules_with_config, hmain]

/-- C8 witness: two in-budget clocks (constant 0 and constant 1) with
different final metrics produce identical errors and counts. -/
theorem C8_determinism_modulo_clock_witness :
    (evaluate_rules_with_config litEngine wConfigC8 CartInput.default
        EvaluatorConfig.default (fun _ => 0) 0).errors =
      (evaluate_rules_with_config litEngine wConfigC8 CartInput.default
        EvaluatorConfig.default (fun _ => 1) 7).errors ∧
    (evaluate_rules_with_config litEngine wConfigC8 CartInput.default
        EvaluatorConfig.default (fun _ => 0) 0).rules_evaluated =
      (evaluate_rules_with_config litEngine wConfigC8 CartInput.default
        EvaluatorConfig.default (fun _ => 1) 7).rules_evaluated :=
  C8_determinism_modulo_clock litEngine wConfigC8 CartInput.default
    EvaluatorConfig.default (fun _ => 0) (fun _ => 1) 0 7
    (fun _ => by norm_num [EvaluatorConfig.default])
    (fun _ => by norm_num [EvaluatorConfig.default])

/-- C10: for every configuration, record, guardrails and clock, the
result has at most one error per evaluated rule, never reports more
evaluated rules than `max_rules`, and its error list is — in declaration
order — drawn from the enabled rules' (id, message) records. -/
theorem C10_driver_invariants (engine : RegexEngine) (config : RulesConfig)
    (cart : CartInput) (cfg : EvaluatorConfig) (clock : Nat → Nat) (u : Nat) :
    (evaluate_rules_with_config engine config cart cfg clock u).errors.length ≤
      (evaluate_rules_with_config engine config cart cfg clock u).rules_evaluated ∧
    (evaluate_rules_with_config engine config cart cfg clock u).rules_evaluated ≤
      cfg.max_rules ∧
    List.Sublist (evaluate_rules_with_config engine config cart cfg clock u).errors
      ((config.rules.filter (fun r => r.enabled)).map ruleError) := by
  refine ⟨?_, ?_, ?_⟩
  · have h := evalLoop_errors_length engine cart cfg clock config.rules 0 0 0
    simpa [evaluate_rules_with_config] using h
  · have h := evalLoop_evaluated_le engine cart cfg clock config.rules 0 0 0
      (Nat.zero_le _)
    simpa [evaluate_rules_with_config] using h
  · have h := evalLoop_errors_sublist engine cart cfg clock config.rules 0 0 0
    simpa [evaluate_rules_with_config] using h

end GateKeep
